import Mathlib

/-!
Verification of the docker-manager control-plane sidecar.

This file gives a shallow embedding, in Lean 4, of the parts of the
JavaScript source that carry the behavioural claims under study:

* the command policy catalog and permission check
  (docker-manager/index.js, docker-manager/lib/config.js),
* HTTP argument collection (collectArgs / parseShellWords in index.js),
* the docker client: name resolution with its 10s cache, nginx
  test/reload ordering, container exec interpreter filtering and the
  tailscale ping command builder (docker-manager/lib/docker-client.js),
* the shadow-backend reconciliation cycle with its snapshot rollback
  (docker-manager/lib/tailscale-shadow-sync.js),
* the scheduled-sync re-entrancy guard (runScheduledSync in index.js).

JavaScript strings are modelled as Lean String (whose data is a list of
characters); file directories and JS Map objects are modelled as
association lists in insertion order; subprocess and filesystem effects
are made explicit by passing in their observable outcomes and returning
the performed calls as traces.  Every definition is translated from the
source file named in its doc comment.
-/

namespace DM

/-! ## String helpers

JS string primitives are modelled through the character list of the
Lean string so that every operation is structurally recursive and can
be evaluated by the kernel. -/

/-- Trim of a character list: drop whitespace from both ends.  Models the
JS String.prototype.trim used by normalizeValue. -/
def trimChars (cs : List Char) : List Char :=
  ((cs.dropWhile Char.isWhitespace).reverse.dropWhile Char.isWhitespace).reverse

/-- Model of normalizeValue from docker-manager/lib/config.js:
String(value ?? "").trim().  Inputs are already strings in this model. -/
def normalizeValue (s : String) : String :=
  String.mk (trimChars s.data)

/-- Split a character list on a separator character; mirrors
JS String.prototype.split with a single-character separator
(so the empty string splits to one empty field). -/
def splitChars (sep : Char) : List Char → List (List Char)
  | [] => [[]]
  | c :: rest =>
      match splitChars sep rest with
      | [] => [[]]
      | field :: fields =>
          if c = sep then [] :: field :: fields
          else (c :: field) :: fields

/-- String version of splitChars. -/
def splitOnChar (sep : Char) (s : String) : List String :=
  (splitChars sep s.data).map String.mk

/-- Leading decimal digits of a character list as a number, if any. -/
def leadingNat (cs : List Char) : Option Nat :=
  let ds := cs.takeWhile Char.isDigit
  if ds.isEmpty then none
  else some (ds.foldl (fun n c => n * 10 + (c.toNat - 48)) 0)

/-- Model of JS Number.parseInt(text, 10) on an already-trimmed string:
an optional sign followed by leading decimal digits; NaN (none) when no
digit follows. -/
def jsParseInt (s : String) : Option Int :=
  match s.data with
  | '+' :: rest => (leadingNat rest).map Int.ofNat
  | '-' :: rest => (leadingNat rest).map (fun n => -(n : Int))
  | l => (leadingNat l).map Int.ofNat

/-! ## Policy catalog and permission check (C1) -/

/-- SAFE_COMMAND_KEYS from docker-manager/lib/config.js. -/
def SAFE_COMMAND_KEYS : List String :=
  ["healthz", "help",
   "tailscale.status", "tailscale.ping", "tailscale.ip",
   "nginx.test", "nginx.version",
   "nginx.logs.access", "nginx.logs.error", "nginx.logs.shadow",
   "system.ps", "system.images", "system.networks", "system.volumes",
   "system.info", "system.version",
   "container.status", "container.logs", "container.inspect",
   "container.top", "container.stats",
   "container.start", "container.stop", "container.restart",
   "container.pause", "container.unpause"]

/-- DANGEROUS_COMMAND_KEYS from docker-manager/lib/config.js. -/
def DANGEROUS_COMMAND_KEYS : List String :=
  ["nginx.reload", "system.prune", "system.raw",
   "container.kill", "container.rm", "container.exec",
   "container.rename", "container.update", "container.raw"]

/-- The category tag of a catalog entry. -/
inductive Category where
  | safe
  | dangerous
  deriving DecidableEq, Repr

/-- COMMAND_SPECS from docker-manager/index.js: safe entries first, then
dangerous entries, each key tagged with its category. -/
def COMMAND_SPECS : List (String × Category) :=
  SAFE_COMMAND_KEYS.map (fun key => (key, Category.safe)) ++
    DANGEROUS_COMMAND_KEYS.map (fun key => (key, Category.dangerous))

/-- COMMAND_MAP.get from docker-manager/index.js.  A JS Map built from a
list of pairs lets a later pair overwrite an earlier one with the same
key, so lookup returns the last matching entry of COMMAND_SPECS. -/
def commandMapGet (key : String) : Option Category :=
  (COMMAND_SPECS.reverse.find? (fun e => e.1 == key)).map (fun e => e.2)

/-- Per-category allow-list, from parseCommandPolicy in config.js. -/
structure CommandPolicy where
  allowAll : Bool
  set : List String
  deriving Repr

/-- The policy-relevant part of the configuration record built by
createConfig in docker-manager/lib/config.js. -/
structure PolicyConfig where
  enableSafeCommands : Bool
  enableDangerousCommands : Bool
  safeCommandsPolicy : CommandPolicy
  dangerousCommandsPolicy : CommandPolicy
  blockedCommands : List String
  deriving Repr

/-- isCommandAllowed from docker-manager/index.js lines 42-63. -/
def isCommandAllowed (config : PolicyConfig) (commandKey : String) : Bool :=
  match commandMapGet commandKey with
  | none => false
  | some category =>
      if config.blockedCommands.contains commandKey then false
      else if category = Category.safe then
        if !config.enableSafeCommands then false
        else config.safeCommandsPolicy.allowAll
          || config.safeCommandsPolicy.set.contains commandKey
      else
        if !config.enableDangerousCommands then false
        else config.dangerousCommandsPolicy.allowAll
          || config.dangerousCommandsPolicy.set.contains commandKey

lemma find?_map_const_category (l : List String) (c : Category) (key : String) :
    ((l.map (fun k => (k, c))).find? (fun e => e.1 == key)) =
      if key ∈ l then some (key, c) else none := by
  induction l with
  | nil => simp
  | cons x xs ih =>
      by_cases hx : x = key
      · subst hx
        simp [List.find?]
      · simp only [List.map_cons, List.find?, List.mem_cons]
        have : (x == key) = false := by simp [hx]
        simp [this, ih, Ne.symm hx]

/-- commandMapGet finds dangerous entries first (they were inserted last),
then safe entries. -/
lemma commandMapGet_eq (key : String) :
    commandMapGet key =
      if key ∈ DANGEROUS_COMMAND_KEYS then some Category.dangerous
      else if key ∈ SAFE_COMMAND_KEYS then some Category.safe
      else none := by
  unfold commandMapGet COMMAND_SPECS
  rw [List.reverse_append, List.find?_append]
  rw [← List.map_reverse, ← List.map_reverse]
  rw [find?_map_const_category, find?_map_const_category]
  by_cases hd : key ∈ DANGEROUS_COMMAND_KEYS
  · simp [hd]
  · by_cases hs : key ∈ SAFE_COMMAND_KEYS <;> simp [hd, hs, Option.orElse]

lemma contains_iff_mem (l : List String) (a : String) :
    l.contains a = true ↔ a ∈ l := by
  induction l with
  | nil => simp
  | cons x xs ih => simp [List.contains]

/-- The safe and dangerous halves of the static catalog are disjoint. -/
lemma safe_dangerous_disjoint :
    ∀ k ∈ SAFE_COMMAND_KEYS, k ∉ DANGEROUS_COMMAND_KEYS := by decide

/-- The permission check as a predicate over the configuration. -/
lemma isCommandAllowed_true_iff (config : PolicyConfig) (key : String) :
    isCommandAllowed config key = true ↔
      ((key ∈ SAFE_COMMAND_KEYS ∧ config.enableSafeCommands = true ∧
          (config.safeCommandsPolicy.allowAll = true ∨ key ∈ config.safeCommandsPolicy.set) ∧
          key ∉ config.blockedCommands) ∨
       (key ∈ DANGEROUS_COMMAND_KEYS ∧ config.enableDangerousCommands = true ∧
          (config.dangerousCommandsPolicy.allowAll = true ∨ key ∈ config.dangerousCommandsPolicy.set) ∧
          key ∉ config.blockedCommands)) := by
    unfold isCommandAllowed
    rw [commandMapGet_eq]
    by_cases hd : key ∈ DANGEROUS_COMMAND_KEYS
    · have hs : key ∉ SAFE_COMMAND_KEYS := fun hs => safe_dangerous_disjoint key hs hd
      by_cases hb : key ∈ config.blockedCommands
      · simp [hd, hs, hb, (contains_iff_mem _ _).2 hb]
      · have hcb : config.blockedCommands.contains key = false := by
          rcases h : config.blockedCommands.contains key with _ | _
          · rfl
          · exact absurd ((contains_iff_mem _ _).1 h) hb
        simp [hd, hs, hb, hcb, contains_iff_mem, and_assoc]
    · by_cases hs : key ∈ SAFE_COMMAND_KEYS
      · by_cases hb : key ∈ config.blockedCommands
        · simp [hd, hs, hb, (contains_iff_mem _ _).2 hb]
        · have hcb : config.blockedCommands.contains key = false := by
            rcases h : config.blockedCommands.contains key with _ | _
            · rfl
            · exact absurd ((contains_iff_mem _ _).1 h) hb
          simp [hd, hs, hb, hcb, contains_iff_mem, and_assoc]
      · simp [hd, hs]

/-- C1.  An operation is permitted iff its name is in the static catalog,
its category's enable flag is set, the category's allow-set is "all" or
contains the name, and the name is not in the global deny-set; names
outside the catalog and names in the deny-set are always refused. -/
theorem c1_isCommandAllowed_iff (config : PolicyConfig) (key : String) :
    (isCommandAllowed config key = true ↔
      ((key ∈ SAFE_COMMAND_KEYS ∧ config.enableSafeCommands = true ∧
          (config.safeCommandsPolicy.allowAll = true ∨ key ∈ config.safeCommandsPolicy.set) ∧
          key ∉ config.blockedCommands) ∨
       (key ∈ DANGEROUS_COMMAND_KEYS ∧ config.enableDangerousCommands = true ∧
          (config.dangerousCommandsPolicy.allowAll = true ∨ key ∈ config.dangerousCommandsPolicy.set) ∧
          key ∉ config.blockedCommands))) ∧
    (key ∉ SAFE_COMMAND_KEYS → key ∉ DANGEROUS_COMMAND_KEYS →
      isCommandAllowed config key = false) ∧
    (key ∈ config.blockedCommands → isCommandAllowed config key = false) := by
  have hmain := isCommandAllowed_true_iff config key
  refine ⟨hmain, ?_, ?_⟩
  · intro hs hd
    rcases h : isCommandAllowed config key with _ | _
    · rfl
    · rcases hmain.1 h with ⟨h1, _⟩ | ⟨h1, _⟩
      · exact absurd h1 hs
      · exact absurd h1 hd
  · intro hb
    rcases h : isCommandAllowed config key with _ | _
    · rfl
    · rcases hmain.1 h with ⟨_, _, _, h4⟩ | ⟨_, _, _, h4⟩ <;> exact absurd hb h4

/-- Witness for C1: the key system.ps is allowed under an allow-all safe
policy with an empty deny-set, the non-catalog name bogus is refused, and
blocking system.ps refuses it even under allow-all. -/
theorem c1_isCommandAllowed_iff_witness :
    (isCommandAllowed
        { enableSafeCommands := true, enableDangerousCommands := false,
          safeCommandsPolicy := { allowAll := true, set := [] },
          dangerousCommandsPolicy := { allowAll := true, set := [] },
          blockedCommands := [] } "system.ps" = true) ∧
    (isCommandAllowed
        { enableSafeCommands := true, enableDangerousCommands := true,
          safeCommandsPolicy := { allowAll := true, set := [] },
          dangerousCommandsPolicy := { allowAll := true, set := [] },
          blockedCommands := [] } "bogus" = false) ∧
    (isCommandAllowed
        { enableSafeCommands := true, enableDangerousCommands := true,
          safeCommandsPolicy := { allowAll := true, set := [] },
          dangerousCommandsPolicy := { allowAll := true, set := [] },
          blockedCommands := ["system.ps"] } "system.ps" = false) := by
  refine ⟨?_, ?_, ?_⟩
  · exact (c1_isCommandAllowed_iff _ "system.ps").1.2
      (Or.inl ⟨by decide, rfl, Or.inl rfl, by decide⟩)
  · exact (c1_isCommandAllowed_iff _ "bogus").2.1 (by decide) (by decide)
  · exact (c1_isCommandAllowed_iff _ "system.ps").2.2 (by decide)

/-! ## Argument collection (C2) -/

/-- Character loop of parseShellWords from docker-manager/index.js lines
141-186.  Arguments: remaining input, the current word, the active quote
character (none outside quotes), the words emitted so far. -/
def parseShellWordsAux : List Char → List Char → Option Char → List (List Char) → List (List Char)
  | [], current, _, result =>
      if current.isEmpty then result else result ++ [current]
  | ch :: rest, current, some q, result =>
      if ch = q then parseShellWordsAux rest current none result
      else if ch = '\\' then
        match rest with
        | [] => parseShellWordsAux [] (current ++ [ch]) (some q) result
        | r :: rest2 => parseShellWordsAux rest2 (current ++ [r]) (some q) result
      else parseShellWordsAux rest (current ++ [ch]) (some q) result
  | ch :: rest, current, none, result =>
      if ch = '"' ∨ ch = '\'' then parseShellWordsAux rest current (some ch) result
      else if ch.isWhitespace then
        (if current.isEmpty then parseShellWordsAux rest current none result
         else parseShellWordsAux rest [] none (result ++ [current]))
      else if ch = '\\' then
        match rest with
        | [] => parseShellWordsAux [] (current ++ [ch]) none result
        | r :: rest2 => parseShellWordsAux rest2 (current ++ [r]) none result
      else parseShellWordsAux rest (current ++ [ch]) none result

/-- parseShellWords from docker-manager/index.js lines 141-186. -/
def parseShellWords (text : String) : List String :=
  let source := normalizeValue text
  if source = "" then []
  else (parseShellWordsAux source.data [] none []).map String.mk

/-- The request body as seen by collectArgs: jsonArgs is some list exactly
when the body parsed as JSON whose args field is an array (items shown
after JS stringification), and text is the raw body text. -/
structure ParsedBody where
  jsonArgs : Option (List String)
  text : String
  deriving Repr

/-- collectArgs from docker-manager/index.js lines 188-221.  argParams is
searchParams.getAll of arg; argsParam is searchParams.get of args with a
missing parameter arriving as the empty string. -/
def collectArgs (argParams : List String) (argsParam : String) (body : ParsedBody) : List String :=
  let args := argParams.foldl (fun acc a =>
    let v := normalizeValue a
    if v = "" then acc else acc ++ [v]) []
  let argsCsv := normalizeValue argsParam
  let args :=
    if argsCsv = "" then args
    else if argsCsv.data.contains ',' then
      (splitOnChar ',' argsCsv).foldl (fun acc token =>
        let v := normalizeValue token
        if v = "" then acc else acc ++ [v]) args
    else args ++ parseShellWords argsCsv
  let args :=
    match body.jsonArgs with
    | none => args
    | some items => items.foldl (fun acc item =>
        let v := normalizeValue item
        if v = "" then acc else acc ++ [v]) args
  if args = [] ∧ body.text ≠ "" then args ++ parseShellWords body.text
  else args

/-- Counterexample to C2: with query ?arg=foo and JSON body args ["bar"],
collectArgs returns ["foo", "bar"], not ["foo"]: sources are merged, the
query parameter does not win. -/
theorem c2_collectArgs_counterexample :
    collectArgs ["foo"] ""
        { jsonArgs := some ["bar"],
          text := "\x7b\"args\":[\"bar\"]\x7d" } = ["foo", "bar"] ∧
      ("foo" :: "bar" :: [] : List String) ≠ ["foo"] := by
  constructor
  · rfl
  · decide

lemma foldl_pushNonempty (l : List String) (init : List String) :
    l.foldl (fun acc a =>
        let v := normalizeValue a
        if v = "" then acc else acc ++ [v]) init
      = init ++ l.filterMap (fun a =>
          let v := normalizeValue a
          if v = "" then none else some v) := by
  induction l generalizing init with
  | nil => simp
  | cons x xs ih =>
      simp only [List.foldl_cons, List.filterMap_cons]
      by_cases hx : normalizeValue x = "" <;> simp [hx, ih]

/-- The arguments contributed by each of the three merged sources. -/
def argsFromQuery (argParams : List String) : List String :=
  argParams.filterMap (fun a =>
    let v := normalizeValue a
    if v = "" then none else some v)

/-- Contribution of the args query parameter: comma-split when a comma is
present, shell-word-split otherwise. -/
def argsFromCsv (argsParam : String) : List String :=
  let argsCsv := normalizeValue argsParam
  if argsCsv = "" then []
  else if argsCsv.data.contains ',' then
    (splitOnChar ',' argsCsv).filterMap (fun token =>
      let v := normalizeValue token
      if v = "" then none else some v)
  else parseShellWords argsCsv

/-- Contribution of the JSON body args array. -/
def argsFromJson (body : ParsedBody) : List String :=
  match body.jsonArgs with
  | none => []
  | some items => items.filterMap (fun item =>
      let v := normalizeValue item
      if v = "" then none else some v)

/-- C2 as amended.  collectArgs concatenates, in order, the repeated arg
query parameters, the comma-or-shell-word-split args query parameter and
the JSON body args array; shell-word-split raw body text is used only
when those three sources together contributed no argument. -/
theorem c2_collectArgs_merges_sources (argParams : List String) (argsParam : String)
    (body : ParsedBody) :
    collectArgs argParams argsParam body =
      (if argsFromQuery argParams ++ argsFromCsv argsParam ++ argsFromJson body = []
          ∧ body.text ≠ "" then
        (argsFromQuery argParams ++ argsFromCsv argsParam ++ argsFromJson body)
          ++ parseShellWords body.text
      else argsFromQuery argParams ++ argsFromCsv argsParam ++ argsFromJson body) := by
  by_cases hcsv : normalizeValue argsParam = ""
  · cases h : body.jsonArgs with
    | none =>
        simp [collectArgs, argsFromQuery, argsFromCsv, argsFromJson,
          foldl_pushNonempty, hcsv, h, List.append_assoc]
    | some items =>
        simp [collectArgs, argsFromQuery, argsFromCsv, argsFromJson,
          foldl_pushNonempty, hcsv, h, List.append_assoc]
  · by_cases hc : ',' ∈ (normalizeValue argsParam).data
    · cases h : body.jsonArgs with
      | none =>
          simp [collectArgs, argsFromQuery, argsFromCsv, argsFromJson,
            foldl_pushNonempty, hcsv, hc, h, List.append_assoc]
      | some items =>
          simp [collectArgs, argsFromQuery, argsFromCsv, argsFromJson,
            foldl_pushNonempty, hcsv, hc, h, List.append_assoc]
    · cases h : body.jsonArgs with
      | none =>
          simp [collectArgs, argsFromQuery, argsFromCsv, argsFromJson,
            foldl_pushNonempty, hcsv, hc, h, List.append_assoc]
      | some items =>
          simp [collectArgs, argsFromQuery, argsFromCsv, argsFromJson,
            foldl_pushNonempty, hcsv, hc, h, List.append_assoc]

/-! ## Command results and the docker client (C6, C8, C9) -/

/-- The normalized result record produced by runCommand in
docker-manager/lib/command-runner.js. -/
structure CmdResult where
  command : String
  stdout : String
  stderr : String
  code : Int
  deriving Repr, DecidableEq

/-- The error-raising check of runDocker in
docker-manager/lib/docker-client.js lines 35-48: without allowFailure a
non-zero exit becomes a thrown error carrying a detail line. -/
def runDockerCheck (allowFailure : Bool) (result : CmdResult) : Except String CmdResult :=
  if allowFailure = false ∧ result.code ≠ 0 then
    Except.error ("docker command failed: " ++
      (if normalizeValue result.stderr ≠ "" then normalizeValue result.stderr
       else if normalizeValue result.stdout ≠ "" then normalizeValue result.stdout
       else "exit " ++ toString result.code))
  else Except.ok result

/-- The in-container command vector of nginxTest. -/
def nginxTestCmd : List String := ["nginx", "-t"]

/-- The in-container command vector of the reload signal. -/
def nginxReloadCmd : List String := ["nginx", "-s", "reload"]

/-- nginxReload from docker-manager/lib/docker-client.js lines 170-173:
await nginxTest() (runDocker without allowFailure, so a non-zero exit
throws), then the reload signal.  The pair returned is the list of
in-container commands actually issued, in order, and the overall
outcome; testResult and reloadResult are the subprocess results the two
invocations would observe. -/
def nginxReload (testResult reloadResult : CmdResult) :
    List (List String) × Except String CmdResult :=
  match runDockerCheck false testResult with
  | Except.error e => ([nginxTestCmd], Except.error e)
  | Except.ok _ =>
      match runDockerCheck false reloadResult with
      | Except.error e => ([nginxTestCmd, nginxReloadCmd], Except.error e)
      | Except.ok r => ([nginxTestCmd, nginxReloadCmd], Except.ok r)

/-- C6.  The reload signal is issued exactly when the preceding config
validation exited 0; on validation failure the operation aborts with the
validation error before any reload command is spawned. -/
theorem c6_nginxReload_validates_first (testResult reloadResult : CmdResult) :
    (nginxReloadCmd ∈ (nginxReload testResult reloadResult).1 ↔ testResult.code = 0) ∧
    (testResult.code ≠ 0 →
      (nginxReload testResult reloadResult).1 = [nginxTestCmd] ∧
      ∃ e, (nginxReload testResult reloadResult).2 = Except.error e) := by
  by_cases h : testResult.code = 0
  · by_cases hr : reloadResult.code = 0 <;>
      simp [nginxReload, runDockerCheck, h, hr, nginxTestCmd, nginxReloadCmd]
  · simp [nginxReload, runDockerCheck, h, nginxTestCmd, nginxReloadCmd]

/-- Witness for C6: with a failing validation (exit 1) only the test
command runs; with a passing one the reload is issued. -/
theorem c6_nginxReload_validates_first_witness :
    ((⟨"t", "", "bad", 1⟩ : CmdResult).code ≠ 0) ∧
    (nginxReload ⟨"t", "", "bad", 1⟩ ⟨"r", "", "", 0⟩).1 = [nginxTestCmd] ∧
    (∃ e, (nginxReload ⟨"t", "", "bad", 1⟩ ⟨"r", "", "", 0⟩).2 = Except.error e) ∧
    (nginxReloadCmd ∈ (nginxReload ⟨"t", "", "", 0⟩ ⟨"r", "", "", 0⟩).1) := by
  have h1 := (c6_nginxReload_validates_first ⟨"t", "", "bad", 1⟩ ⟨"r", "", "", 0⟩).2
    (by decide)
  have h2 := (c6_nginxReload_validates_first ⟨"t", "", "", 0⟩ ⟨"r", "", "", 0⟩).1.2 rfl
  exact ⟨by decide, h1.1, h1.2, h2⟩

/-- The interpreter requested for a container exec after applying the
default: normalizeValue(shellName) with the configured execShell as
fallback (docker-client.js line 313). -/
def requestedShell (shellName defaultShell : String) : String :=
  if normalizeValue shellName ≠ "" then normalizeValue shellName else defaultShell

/-- The interpreter actually placed in the argument vector
(docker-client.js line 314): members of the allow-set pass through,
anything else becomes the literal sh. -/
def safeShellOf (shellName defaultShell : String) : String :=
  let shell := requestedShell shellName defaultShell
  if shell = "sh" ∨ shell = "bash" ∨ shell = "zsh" ∨ shell = "ash" then shell else "sh"

/-- containerExec from docker-manager/lib/docker-client.js lines 311-320,
after target resolution: the docker argument vector built for the exec,
or the thrown error for an empty command. -/
def containerExec (resolved shellName defaultShell commandText : String) :
    Except String (List String) :=
  let safeShell := safeShellOf shellName defaultShell
  let command := normalizeValue commandText
  if command = "" then Except.error "container exec requires command"
  else Except.ok (["exec", resolved, safeShell, "-lc", command])

/-- Counterexample to C8: with configured default interpreter bash, the
disallowed requested interpreter fish falls back to the literal sh, not
to the configured default. -/
theorem c8_containerExec_counterexample :
    containerExec "c" "fish" "bash" "ls" = Except.ok ["exec", "c", "sh", "-lc", "ls"] ∧
    ¬ containerExec "c" "fish" "bash" "ls" = Except.ok ["exec", "c", "bash", "-lc", "ls"] := by
  refine ⟨rfl, fun h => ?_⟩
  have h0 : (Except.ok ["exec", "c", "sh", "-lc", "ls"] :
      Except String (List String)) = Except.ok ["exec", "c", "bash", "-lc", "ls"] := by
    calc (Except.ok ["exec", "c", "sh", "-lc", "ls"] : Except String (List String))
        = containerExec "c" "fish" "bash" "ls" := rfl
      _ = Except.ok ["exec", "c", "bash", "-lc", "ls"] := h
  exact absurd (Except.ok.inj h0) (by decide)

/-- C8 as amended.  The interpreter placed in the exec argument vector is
the requested shell when it is one of sh, bash, zsh, ash (after falling
back to the configured default when no shell was requested); any other
interpreter is replaced by the literal sh — never propagated verbatim,
and not replaced by the configured default. -/
theorem c8_containerExec_interpreter (resolved shellName defaultShell commandText : String)
    (hcmd : normalizeValue commandText ≠ "") :
    containerExec resolved shellName defaultShell commandText =
      Except.ok (["exec", resolved, safeShellOf shellName defaultShell, "-lc",
        normalizeValue commandText]) ∧
    safeShellOf shellName defaultShell ∈ (["sh", "bash", "zsh", "ash"] : List String) ∧
    (requestedShell shellName defaultShell ∈ (["sh", "bash", "zsh", "ash"] : List String) →
      safeShellOf shellName defaultShell = requestedShell shellName defaultShell) ∧
    (requestedShell shellName defaultShell ∉ (["sh", "bash", "zsh", "ash"] : List String) →
      safeShellOf shellName defaultShell = "sh") := by
  refine ⟨?_, ?_, ?_, ?_⟩
  · unfold containerExec
    simp [hcmd]
  · unfold safeShellOf
    by_cases h : requestedShell shellName defaultShell = "sh" ∨
        requestedShell shellName defaultShell = "bash" ∨
        requestedShell shellName defaultShell = "zsh" ∨
        requestedShell shellName defaultShell = "ash"
    · rcases h with h | h | h | h <;> simp [h]
    · simp [h]
  · intro hmem
    unfold safeShellOf
    simp only [List.mem_cons, List.not_mem_nil, or_false] at hmem
    rcases hmem with h | h | h | h <;> simp [h]
  · intro hmem
    unfold safeShellOf
    simp only [List.mem_cons, List.not_mem_nil, or_false] at hmem
    simp [hmem]

/-- Witness for C8: a requested zsh passes through; a requested fish with
default bash becomes sh. -/
theorem c8_containerExec_interpreter_witness :
    normalizeValue "echo hi" ≠ "" ∧
    containerExec "web" "zsh" "sh" "echo hi" =
      Except.ok ["exec", "web", "zsh", "-lc", "echo hi"] ∧
    safeShellOf "fish" "bash" = "sh" := by
  have h1 := (c8_containerExec_interpreter "web" "zsh" "sh" "echo hi" (by decide)).1
  have h2 := (c8_containerExec_interpreter "c" "fish" "bash" "ls" (by decide)).2.2.2
    (by decide)
  refine ⟨by decide, ?_, h2⟩
  rw [h1]
  rfl

/-! ## tailscale ping (C9) -/

/-- parsePositiveInt from docker-manager/lib/docker-client.js lines
12-25: parse the normalized text as a base-10 integer, return the
fallback when unparseable, otherwise clamp into the min/max range. -/
def parsePositiveInt (value : String) (fallback lo hi : Int) : Int :=
  let normalized := normalizeValue value
  match jsParseInt normalized with
  | none => fallback
  | some parsed => if parsed < lo then lo else if parsed > hi then hi else parsed

/-- tailscalePing from docker-manager/lib/docker-client.js lines
153-160, after target resolution: the in-container argument vector, or
the thrown error for an empty target. -/
def tailscalePing (target count : String) : Except String (List String) :=
  let normalizedTarget := normalizeValue target
  if normalizedTarget = "" then Except.error "tailscale ping requires target"
  else
    let pingCount := parsePositiveInt count 3 1 10
    Except.ok ["tailscale", "ping", "-c", toString pingCount, normalizedTarget]

/-- Join words with single spaces, as JS Array.prototype.join(" "). -/
def joinWords : List String → String
  | [] => ""
  | [w] => w
  | w :: rest => w ++ " " ++ joinWords rest

/-- buildCommandText from docker-manager/lib/command-runner.js line 5:
the program and its arguments joined by spaces, trimmed. -/
def buildCommandText (command : String) (args : List String) : String :=
  normalizeValue (joinWords (command :: args))

/-- The target/count extraction of the /dockerapi/tailscale/ping route
(docker-manager/index.js lines 647-661): target is the first non-empty
of query target, JSON body target, raw body text; count is the first
non-empty of query count and JSON body count. -/
def handleTailscalePing (queryTarget queryCount jsonTarget jsonCount : Option String)
    (bodyText : String) : Except String (List String) :=
  let target :=
    let q := normalizeValue (queryTarget.getD "")
    if q ≠ "" then q
    else
      let j := normalizeValue (jsonTarget.getD "")
      if j ≠ "" then j else normalizeValue bodyText
  let count :=
    let q := normalizeValue (queryCount.getD "")
    if q ≠ "" then q else normalizeValue (jsonCount.getD "")
  tailscalePing target count

/-- C9.  For a non-empty target the ping count is clamped into [1, 10]
(3 when unparseable) and the argument vector keeps the order ping, -c,
count, target; the example request (target 100.64.0.3, count 2) yields a
command text containing ping -c 2 100.64.0.3. -/
theorem c9_tailscalePing_count_clamped (target count : String)
    (htarget : normalizeValue target ≠ "") :
    tailscalePing target count =
      Except.ok ["tailscale", "ping", "-c", toString (parsePositiveInt count 3 1 10),
        normalizeValue target] ∧
    1 ≤ parsePositiveInt count 3 1 10 ∧
    parsePositiveInt count 3 1 10 ≤ 10 ∧
    (jsParseInt (normalizeValue count) = none → parsePositiveInt count 3 1 10 = 3) ∧
    handleTailscalePing (some "100.64.0.3") (some "2") none none "" =
      Except.ok ["tailscale", "ping", "-c", "2", "100.64.0.3"] ∧
    buildCommandText "docker" ["exec", "tailscale", "tailscale", "ping", "-c", "2",
        "100.64.0.3"] =
      "docker exec tailscale tailscale " ++ "ping -c 2 100.64.0.3" := by
  refine ⟨?_, ?_, ?_, ?_, by rfl, by decide⟩
  · unfold tailscalePing
    simp [htarget]
  · unfold parsePositiveInt
    rcases h : jsParseInt (normalizeValue count) with _ | v
    · simp [h]
    · simp only [h]
      split_ifs with h1 h2 <;> omega
  · unfold parsePositiveInt
    rcases h : jsParseInt (normalizeValue count) with _ | v
    · simp [h]
    · simp only [h]
      split_ifs with h1 h2 <;> omega
  · intro hnone
    simp [parsePositiveInt, hnone]

/-- Witness for C9 at the example request: target 100.64.0.3, count 2. -/
theorem c9_tailscalePing_count_clamped_witness :
    normalizeValue "100.64.0.3" ≠ "" ∧
    tailscalePing "100.64.0.3" "2" =
      Except.ok ["tailscale", "ping", "-c", "2", "100.64.0.3"] := by
  have h := (c9_tailscalePing_count_clamped "100.64.0.3" "2" (by decide)).1
  refine ⟨by decide, ?_⟩
  rw [h]
  rfl

/-! ## Scheduled sync run state (C5) -/

/-- The value returned by runTailscaleShadowSync and stored into
lastResult (tailscale-shadow-sync.js lines 190-221). -/
structure SyncValue where
  changed : Bool
  previousIps : List String
  nextIps : List String
  added : List String
  removed : List String
  deriving Repr, DecidableEq

/-- runtimeState.sync from docker-manager/index.js lines 23-32, with
timestamps as naturals. -/
structure SyncRunState where
  enabled : Bool
  inProgress : Bool
  lastRunAt : Option Nat
  lastSuccessAt : Option Nat
  lastError : String
  lastResult : Option SyncValue
  totalRuns : Nat
  totalFailures : Nat
  deriving Repr, DecidableEq

/-- The guard-and-begin step of runScheduledSync (index.js lines
317-328): none when the trigger is dropped (sync disabled, or a cycle
already in progress), otherwise the state at the moment the cycle
starts. -/
def syncBegin (st : SyncRunState) (now : Nat) : Option SyncRunState :=
  if st.enabled = false then none
  else if st.inProgress then none
  else some { st with inProgress := true, lastRunAt := some now,
                      totalRuns := st.totalRuns + 1 }

/-- The completion step of runScheduledSync (index.js lines 329-344):
record the outcome and, in the finally block, clear inProgress. -/
def syncFinish (st : SyncRunState) (now2 : Nat) (outcome : Except String SyncValue) :
    SyncRunState :=
  match outcome with
  | Except.ok value =>
      { st with lastResult := some value, lastSuccessAt := some now2,
                lastError := "", inProgress := false }
  | Except.error e =>
      { st with totalFailures := st.totalFailures + 1, lastError := e,
                inProgress := false }

/-- runScheduledSync from docker-manager/index.js lines 317-345, as a
state transition; outcome is the result the awaited
runTailscaleShadowSync would produce. -/
def runScheduledSync (st : SyncRunState) (now now2 : Nat)
    (outcome : Except String SyncValue) : SyncRunState :=
  match syncBegin st now with
  | none => st
  | some s => syncFinish s now2 outcome

/-- C5.  A trigger that fires while a cycle is in progress mutates
nothing; a begun cycle runs with inProgress set, so a second trigger
during it is the identity and the final state equals the one the first
cycle alone would produce; and every cycle ends with inProgress false. -/
theorem c5_sync_reentrancy (st : SyncRunState) (now now2 now3 now4 : Nat)
    (outcome outcome2 : Except String SyncValue) :
    (st.inProgress = true → runScheduledSync st now now2 outcome = st) ∧
    (∀ s, syncBegin st now = some s →
      runScheduledSync s now3 now4 outcome2 = s ∧
      (syncFinish s now2 outcome).inProgress = false ∧
      syncFinish (runScheduledSync s now3 now4 outcome2) now2 outcome =
        syncFinish s now2 outcome) := by
  constructor
  · intro h
    unfold runScheduledSync syncBegin
    rcases he : st.enabled with _ | _ <;> simp [h, he]
  · intro s hs
    unfold syncBegin at hs
    rcases he : st.enabled with _ | _ <;> rw [he] at hs
    · simp at hs
    · rcases hp : st.inProgress with _ | _ <;> rw [hp] at hs
      · simp at hs
        have hsin : s.inProgress = true := by rw [← hs]
        have hskip : runScheduledSync s now3 now4 outcome2 = s := by
          unfold runScheduledSync syncBegin
          rcases hse : s.enabled with _ | _ <;> simp [hsin, hse]
        refine ⟨hskip, ?_, by rw [hskip]⟩
        rcases outcome with e | val <;> simp [syncFinish]
      · simp at hs

/-- Witness for C5: a trigger against an in-progress state is dropped,
and a begun cycle is immune to an interleaved trigger and ends with
inProgress cleared. -/
theorem c5_sync_reentrancy_witness :
    runScheduledSync ⟨true, true, some 1, none, "", none, 3, 1⟩ 7 8
        (Except.error "boom") = ⟨true, true, some 1, none, "", none, 3, 1⟩ ∧
    syncBegin ⟨true, false, none, none, "", none, 3, 1⟩ 5 =
      some ⟨true, true, some 5, none, "", none, 4, 1⟩ ∧
    runScheduledSync ⟨true, true, some 5, none, "", none, 4, 1⟩ 7 8
        (Except.error "boom") = ⟨true, true, some 5, none, "", none, 4, 1⟩ ∧
    (syncFinish ⟨true, true, some 5, none, "", none, 4, 1⟩ 9
        (Except.ok ⟨false, [], [], [], []⟩)).inProgress = false ∧
    syncFinish (runScheduledSync ⟨true, true, some 5, none, "", none, 4, 1⟩ 7 8
        (Except.error "boom")) 9 (Except.ok ⟨false, [], [], [], []⟩) =
      syncFinish ⟨true, true, some 5, none, "", none, 4, 1⟩ 9
        (Except.ok ⟨false, [], [], [], []⟩) := by
  have h1 := (c5_sync_reentrancy ⟨true, true, some 1, none, "", none, 3, 1⟩ 7 8 7 8
    (Except.error "boom") (Except.error "boom")).1 rfl
  have h2 := (c5_sync_reentrancy ⟨true, false, none, none, "", none, 3, 1⟩ 5 9 7 8
    (Except.ok ⟨false, [], [], [], []⟩) (Except.error "boom")).2
    ⟨true, true, some 5, none, "", none, 4, 1⟩ rfl
  exact ⟨h1, rfl, h2.1, h2.2.1, h2.2.2⟩

/-! ## Container name resolution and its cache (C7) -/

lemma head?_dropWhile_not {α : Type} (p : α → Bool) (l : List α) :
    ∀ x, (l.dropWhile p).head? = some x → p x = false := by
  induction l with
  | nil => intro x h; simp at h
  | cons a as ih =>
      intro x h
      rw [List.dropWhile_cons] at h
      by_cases hp : p a
      · rw [if_pos hp] at h
        exact ih x h
      · rw [if_neg hp] at h
        simp only [List.head?_cons, Option.some.injEq] at h
        subst h
        exact Bool.not_eq_true _ |>.mp hp

lemma trimChars_eq_rdropWhile (cs : List Char) :
    trimChars cs = List.rdropWhile Char.isWhitespace (cs.dropWhile Char.isWhitespace) := rfl

/-- Trimming is idempotent. -/
lemma trimChars_idem (cs : List Char) : trimChars (trimChars cs) = trimChars cs := by
  rw [trimChars_eq_rdropWhile, trimChars_eq_rdropWhile]
  have h1 : List.dropWhile Char.isWhitespace
      (List.rdropWhile Char.isWhitespace (cs.dropWhile Char.isWhitespace)) =
      List.rdropWhile Char.isWhitespace (cs.dropWhile Char.isWhitespace) := by
    rcases ht : List.rdropWhile Char.isWhitespace (cs.dropWhile Char.isWhitespace)
      with _ | ⟨x, t⟩
    · simp
    · have hpre := List.rdropWhile_prefix Char.isWhitespace (cs.dropWhile Char.isWhitespace)
      rw [ht] at hpre
      obtain ⟨r, hr⟩ := hpre
      have hhead : (cs.dropWhile Char.isWhitespace).head? = some x := by rw [← hr]; rfl
      have hx := head?_dropWhile_not Char.isWhitespace cs x hhead
      rw [List.dropWhile_cons, hx]
      simp
  rw [h1, List.rdropWhile_idempotent]

/-- normalizeValue is idempotent, as JS trim is. -/
lemma normalizeValue_idem (s : String) :
    normalizeValue (normalizeValue s) = normalizeValue s := by
  unfold normalizeValue
  exact congrArg String.mk (trimChars_idem s.data)

/-- A resolution cache entry: {value, expiresAt}, docker-client.js
lines 86-89. -/
structure CacheEntry where
  value : String
  expiresAt : Nat
  deriving Repr, DecidableEq

/-- containerResolveCache, a JS Map in insertion order. -/
abbrev ResolveCache := List (String × CacheEntry)

/-- JS Map.prototype.get. -/
def mapGet {α : Type} : List (String × α) → String → Option α
  | [], _ => none
  | (k2, v) :: rest, k => if k2 = k then some v else mapGet rest k

/-- JS Map.prototype.set: replace in place, else append. -/
def mapSet {α : Type} : List (String × α) → String → α → List (String × α)
  | [], k, v => [(k, v)]
  | (k2, v2) :: rest, k, v =>
      if k2 = k then (k2, v) :: rest else (k2, v2) :: mapSet rest k v

/-- JS Map.prototype.delete, and file removal in a directory (keys are
unique in both). -/
def mapDelete {α : Type} : List (String × α) → String → List (String × α)
  | [], _ => []
  | (n, c) :: rest, k =>
      if n = k then mapDelete rest k else (n, c) :: mapDelete rest k

lemma mapGet_mapSet_self {α : Type} (m : List (String × α)) (k : String) (v : α) :
    mapGet (mapSet m k v) k = some v := by
  induction m with
  | nil => simp [mapSet, mapGet]
  | cons e rest ih =>
      obtain ⟨k2, v2⟩ := e
      by_cases h : k2 = k <;> simp [mapSet, mapGet, h, ih]

lemma mapGet_mapSet_ne {α : Type} (m : List (String × α)) (k k2 : String) (v : α)
    (h : k ≠ k2) : mapGet (mapSet m k v) k2 = mapGet m k2 := by
  induction m with
  | nil => simp [mapSet, mapGet, h]
  | cons e rest ih =>
      obtain ⟨k3, v3⟩ := e
      by_cases h3 : k3 = k
      · subst h3
        simp [mapSet, mapGet, h]
      · simp [mapSet, mapGet, h3, ih]

/-- readResolveCache from docker-client.js lines 67-78: look the
normalized name up; a hit past its expiry is deleted and reported as a
miss.  Returns the value (empty on miss) and the possibly-updated
cache. -/
def readResolveCache (cache : ResolveCache) (now : Nat) (containerName : String) :
    String × ResolveCache :=
  let key := normalizeValue containerName
  match mapGet cache key with
  | none => ("", cache)
  | some cached =>
      if cached.expiresAt ≤ now then ("", mapDelete cache key)
      else (cached.value, cache)

/-- writeResolveCache from docker-client.js lines 80-90; the TTL is
containerResolveTtlMs = 10000. -/
def writeResolveCache (cache : ResolveCache) (now : Nat)
    (containerName resolvedName : String) : ResolveCache :=
  let key := normalizeValue containerName
  let value := normalizeValue resolvedName
  if key = "" ∨ value = "" then cache
  else mapSet cache key { value := value, expiresAt := now + 10000 }

/-- isContainerNameValid from docker-manager/lib/config.js line 363 and
CONTAINER_NAME_PATTERN line 272: an alphanumeric first character then
alphanumeric, underscore, dot or dash. -/
def isContainerNameValid (containerName : String) : Bool :=
  match (normalizeValue containerName).data with
  | [] => false
  | c :: rest =>
      (c.isAlpha || c.isDigit) &&
        rest.all (fun ch => ch.isAlpha || ch.isDigit || ch = '_' || ch = '.' || ch = '-')

/-- readFirstLine from docker-client.js lines 56-65: first non-empty
trimmed line of the text (splitting on newlines; a carriage return
before the newline is removed by the per-line trim). -/
def readFirstLine (text : String) : String :=
  (((splitOnChar '\n' text).map normalizeValue).filter (fun l => l != "")).headD ""

/-- The observable outcomes of the docker calls a resolution may make:
the exit code of the direct container inspect, and the stdout of the
two compose-service searches (docker ps, then docker ps -a). -/
structure ResolveOracle where
  inspectCode : Int
  psRunningStdout : String
  psAllStdout : String
  deriving Repr

/-- findContainerByComposeService from docker-client.js lines 92-106:
first matching running container name, else first matching name in any
state.  Also returns the docker calls made. -/
def findContainerByComposeService (serviceName : String) (o : ResolveOracle) :
    String × List String :=
  let service := normalizeValue serviceName
  if service = "" then ("", [])
  else
    let runningName := readFirstLine o.psRunningStdout
    if runningName ≠ "" then (runningName, ["ps"])
    else (readFirstLine o.psAllStdout, ["ps", "ps-a"])

/-- resolveContainerTarget from docker-client.js lines 108-139: validate
the name, consult the cache, then a direct inspect existence check, then
the compose-service search, caching any success.  Returns the outcome,
the updated cache and the trace of docker calls made. -/
def resolveContainerTarget (cache : ResolveCache) (now : Nat) (containerName : String)
    (o : ResolveOracle) : Except String String × ResolveCache × List String :=
  if isContainerNameValid containerName = false then
    (Except.error ("invalid container name: " ++ containerName), cache, [])
  else
    let directName := normalizeValue containerName
    let rc := readResolveCache cache now directName
    if rc.1 ≠ "" then (Except.ok rc.1, rc.2, [])
    else if o.inspectCode = 0 then
      (Except.ok directName, writeResolveCache rc.2 now directName directName, ["inspect"])
    else
      let fc := findContainerByComposeService directName o
      if fc.1 ≠ "" then
        (Except.ok fc.1,
          writeResolveCache (writeResolveCache rc.2 now directName fc.1) now fc.1 fc.1,
          "inspect" :: fc.2)
      else
        (Except.error ("container not found: " ++ directName ++
            ". Hint: set DOCKER_MANAGER_TAILSCALE_CONTAINER/DOCKER_MANAGER_NGINX_CONTAINER to actual container name if needed"),
          rc.2, "inspect" :: fc.2)

lemma valid_normalize_ne (name : String) (h : isContainerNameValid name = true) :
    normalizeValue name ≠ "" := by
  intro he
  unfold isContainerNameValid at h
  rw [he] at h
  simp at h

/-- readFirstLine output is already trimmed. -/
lemma normalizeValue_readFirstLine (s : String) :
    normalizeValue (readFirstLine s) = readFirstLine s := by
  unfold readFirstLine
  generalize splitOnChar '\n' s = ls
  induction ls with
  | nil =>
      show normalizeValue "" = ""
      rfl
  | cons x xs ih =>
      simp only [List.map_cons, List.filter_cons]
      by_cases hx : normalizeValue x != ""
      · rw [if_pos hx]
        show normalizeValue (normalizeValue x) = normalizeValue x
        exact normalizeValue_idem x
      · rw [if_neg hx]
        exact ih

/-- The search result of findContainerByComposeService is already
trimmed. -/
lemma findCompose_normalized (s : String) (o : ResolveOracle) :
    normalizeValue (findContainerByComposeService s o).1 =
      (findContainerByComposeService s o).1 := by
  unfold findContainerByComposeService
  simp only []
  split_ifs
  · rfl
  · exact normalizeValue_readFirstLine _
  · exact normalizeValue_readFirstLine _

/-- A successful resolution that made at least one docker call leaves a
cache entry for the name, valued at the resolved identifier and expiring
10000 ms later. -/
lemma resolve_fresh_success (cache : ResolveCache) (t : Nat) (name : String)
    (o : ResolveOracle) (v : String) (c1 : ResolveCache) (tr : List String)
    (hres : resolveContainerTarget cache t name o = (Except.ok v, c1, tr))
    (hfresh : tr ≠ []) :
    mapGet c1 (normalizeValue name) = some { value := v, expiresAt := t + 10000 } ∧
      v ≠ "" ∧ isContainerNameValid name = true := by
  rcases hvalid : isContainerNameValid name with _ | _
  · unfold resolveContainerTarget at hres
    rw [hvalid] at hres
    simp at hres
  · have hd : normalizeValue name ≠ "" := valid_normalize_ne name hvalid
    unfold resolveContainerTarget at hres
    rw [hvalid] at hres
    rw [if_neg (by decide)] at hres
    simp only [] at hres
    split_ifs at hres with h1 h2 h3
    · exact absurd (congrArg (fun p => p.2.2) hres).symm hfresh
    · simp only [Prod.mk.injEq, Except.ok.injEq] at hres
      obtain ⟨hv, hc, _⟩ := hres
      subst hv
      subst hc
      refine ⟨?_, hd, rfl⟩
      unfold writeResolveCache
      simp only [normalizeValue_idem]
      rw [if_neg (by simp [hd])]
      exact mapGet_mapSet_self _ _ _
    · simp only [Prod.mk.injEq, Except.ok.injEq] at hres
      obtain ⟨hv, hc, _⟩ := hres
      subst hv
      subst hc
      refine ⟨?_, h3, rfl⟩
      have hinner : writeResolveCache (readResolveCache cache t (normalizeValue name)).2 t
          (normalizeValue name) (findContainerByComposeService (normalizeValue name) o).1 =
          mapSet (readResolveCache cache t (normalizeValue name)).2 (normalizeValue name)
            ⟨(findContainerByComposeService (normalizeValue name) o).1, t + 10000⟩ := by
        unfold writeResolveCache
        simp only [normalizeValue_idem, findCompose_normalized]
        rw [if_neg]
        rintro (h | h)
        · exact hd h
        · exact h3 h
      have houter : ∀ m : ResolveCache, writeResolveCache m t
          (findContainerByComposeService (normalizeValue name) o).1
          (findContainerByComposeService (normalizeValue name) o).1 =
          mapSet m (findContainerByComposeService (normalizeValue name) o).1
            ⟨(findContainerByComposeService (normalizeValue name) o).1, t + 10000⟩ := by
        intro m
        unfold writeResolveCache
        simp only [findCompose_normalized]
        rw [if_neg]
        rintro (h | h) <;> exact h3 h
      rw [hinner, houter]
      by_cases hfd : (findContainerByComposeService (normalizeValue name) o).1 =
          normalizeValue name
      · rw [hfd, mapGet_mapSet_self]
      · rw [mapGet_mapSet_ne _ _ _ _ hfd, mapGet_mapSet_self]
    · simp at hres

/-- C7.  After a fresh successful resolution at time t, a second
resolution of the same name strictly within the 10-second TTL returns
the identical identifier from the cache, making no docker call and
leaving the cache unchanged; at or past the expiry the entry is
discarded by the cache read and the resolution starts with a fresh
direct existence check. -/
theorem c7_resolution_cache_ttl (cache : ResolveCache) (t t2 : Nat) (name : String)
    (o o2 : ResolveOracle) (v : String) (c1 : ResolveCache) (tr : List String)
    (hres : resolveContainerTarget cache t name o = (Except.ok v, c1, tr))
    (hfresh : tr ≠ []) :
    (t2 < t + 10000 →
      resolveContainerTarget c1 t2 name o2 = (Except.ok v, c1, [])) ∧
    (t + 10000 ≤ t2 →
      readResolveCache c1 t2 name = ("", mapDelete c1 (normalizeValue name)) ∧
      (resolveContainerTarget c1 t2 name o2).2.2.head? = some "inspect") := by
  obtain ⟨hget, hv, hvalid⟩ :=
    resolve_fresh_success cache t name o v c1 tr hres hfresh
  constructor
  · intro ht2
    have hrc : readResolveCache c1 t2 (normalizeValue name) = (v, c1) := by
      unfold readResolveCache
      simp only [normalizeValue_idem, hget]
      rw [if_neg (by omega)]
    unfold resolveContainerTarget
    rw [hvalid]
    rw [if_neg (by decide)]
    simp only [hrc]
    simp [hv]
  · intro ht2
    have hrc : readResolveCache c1 t2 (normalizeValue name) =
        ("", mapDelete c1 (normalizeValue name)) := by
      unfold readResolveCache
      simp only [normalizeValue_idem, hget]
      rw [if_pos (by omega)]
    constructor
    · unfold readResolveCache
      simp only [hget]
      rw [if_pos (by omega)]
    · unfold resolveContainerTarget
      rw [hvalid]
      rw [if_neg (by decide)]
      simp only [hrc]
      simp only [ne_eq, not_true_eq_false, if_false]
      split_ifs <;> rfl

/-- Witness for C7: resolving web against an inspectable container
caches web for 10 s; a re-resolution at t = 5000 is served from the
cache with no docker call, and at t = 10000 the entry is expired and a
fresh inspect happens. -/
theorem c7_resolution_cache_ttl_witness :
    resolveContainerTarget [] 0 "web" ⟨0, "", ""⟩ =
      (Except.ok "web", [("web", ⟨"web", 10000⟩)], ["inspect"]) ∧
    resolveContainerTarget [("web", ⟨"web", 10000⟩)] 5000 "web" ⟨1, "", ""⟩ =
      (Except.ok "web", [("web", ⟨"web", 10000⟩)], []) ∧
    readResolveCache [("web", ⟨"web", 10000⟩)] 10000 "web" = ("", []) ∧
    (resolveContainerTarget [("web", ⟨"web", 10000⟩)] 10000 "web"
        ⟨1, "", ""⟩).2.2.head? = some "inspect" := by
  have hres : resolveContainerTarget [] 0 "web" ⟨0, "", ""⟩ =
      (Except.ok "web", [("web", ⟨"web", 10000⟩)], ["inspect"]) := by rfl
  have h := c7_resolution_cache_ttl [] 0 5000 "web" ⟨0, "", ""⟩ ⟨1, "", ""⟩
    "web" [("web", ⟨"web", 10000⟩)] ["inspect"] hres (by simp)
  have h2 := c7_resolution_cache_ttl [] 0 10000 "web" ⟨0, "", ""⟩ ⟨1, "", ""⟩
    "web" [("web", ⟨"web", 10000⟩)] ["inspect"] hres (by simp)
  have hexp := h2.2 (by omega)
  refine ⟨hres, h.1 (by omega), ?_, hexp.2⟩
  have := hexp.1
  rwa [show mapDelete [("web", (⟨"web", 10000⟩ : CacheEntry))]
      (normalizeValue "web") = [] from rfl] at this

/-! ## Policy-gated health and help routes (C10) -/

/-- A rendered HTTP response: status code and body. -/
structure HttpResponse where
  status : Nat
  body : String
  deriving Repr, DecidableEq

/-- Whether the text already ends in a newline (JS text.endsWith of a
newline, used by respondText). -/
def endsWithNewline (s : String) : Bool :=
  s.data.getLast? == some '\n'

/-- respondText from docker-manager/index.js lines 65-73, restricted to
the status and body (headers are constant). -/
def respondText (statusCode : Nat) (text : String) : HttpResponse :=
  { status := statusCode,
    body := if endsWithNewline text then text else text ++ "\n" }

/-- The /dockerapi/healthz branch of requestHandler (index.js lines
597-621): ensureMethod GET, requirePermission healthz, then the
plain-text health report. -/
def handleHealthzRoute (config : PolicyConfig) (method : String) (report : String) :
    HttpResponse :=
  if method ≠ "GET" then
    respondText 405 ("method not allowed: " ++ method ++ "\nallowed: GET")
  else if isCommandAllowed config "healthz" = false then
    respondText 403 "command is blocked by policy: healthz"
  else respondText 200 report

/-- The /dockerapi/help branch of requestHandler (index.js lines
586-595): ensureMethod GET, requirePermission help, then the help
text. -/
def handleHelpRoute (config : PolicyConfig) (method : String) (helpText : String) :
    HttpResponse :=
  if method ≠ "GET" then
    respondText 405 ("method not allowed: " ++ method ++ "\nallowed: GET")
  else if isCommandAllowed config "help" = false then
    respondText 403 "command is blocked by policy: help"
  else respondText 200 helpText

/-- A safe-catalog key is refused whenever the safe category is disabled,
the key is outside a non-allowAll allow-set, or the key is deny-listed. -/
lemma isCommandAllowed_safe_false (config : PolicyConfig) (key : String)
    (hnd : key ∉ DANGEROUS_COMMAND_KEYS)
    (hcond : config.enableSafeCommands = false ∨
      (config.safeCommandsPolicy.allowAll = false ∧ key ∉ config.safeCommandsPolicy.set) ∨
      key ∈ config.blockedCommands) :
    isCommandAllowed config key = false := by
  rcases h : isCommandAllowed config key with _ | _
  · rfl
  · exfalso
    rcases (isCommandAllowed_true_iff config key).1 h with
      ⟨_, hen, hallow, hnb⟩ | ⟨hmem, _, _, _⟩
    · rcases hcond with hc | hc | hc
      · exact absurd (hen.symm.trans hc) (by decide)
      · rcases hallow with ha | ha
        · exact absurd (ha.symm.trans hc.1) (by decide)
        · exact hc.2 ha
      · exact hnb hc
    · exact hnd hmem

/-- C10.  The health and help endpoints are policy-gated members of the
safe catalog: whenever the safe category is disabled, or healthz
(respectively help) is excluded by the allow-set or deny-listed, a GET
returns 403 naming the denied key instead of the report. -/
theorem c10_healthz_help_policy_gated (config : PolicyConfig) (report helpText : String) :
    ((config.enableSafeCommands = false ∨
        (config.safeCommandsPolicy.allowAll = false ∧
          "healthz" ∉ config.safeCommandsPolicy.set) ∨
        "healthz" ∈ config.blockedCommands) →
      handleHealthzRoute config "GET" report =
        { status := 403, body := "command is blocked by policy: healthz\n" }) ∧
    ((config.enableSafeCommands = false ∨
        (config.safeCommandsPolicy.allowAll = false ∧
          "help" ∉ config.safeCommandsPolicy.set) ∨
        "help" ∈ config.blockedCommands) →
      handleHelpRoute config "GET" helpText =
        { status := 403, body := "command is blocked by policy: help\n" }) := by
  constructor
  · intro hcond
    have hfalse := isCommandAllowed_safe_false config "healthz" (by decide) hcond
    unfold handleHealthzRoute
    rw [if_neg (by decide), if_pos hfalse]
    rfl
  · intro hcond
    have hfalse := isCommandAllowed_safe_false config "help" (by decide) hcond
    unfold handleHelpRoute
    rw [if_neg (by decide), if_pos hfalse]
    rfl

/-- Witness for C10: with safe commands disabled, both endpoints return
the 403 policy message. -/
theorem c10_healthz_help_policy_gated_witness :
    handleHealthzRoute
        { enableSafeCommands := false, enableDangerousCommands := true,
          safeCommandsPolicy := { allowAll := true, set := [] },
          dangerousCommandsPolicy := { allowAll := true, set := [] },
          blockedCommands := [] } "GET" "status=ok" =
      { status := 403, body := "command is blocked by policy: healthz\n" } ∧
    handleHelpRoute
        { enableSafeCommands := false, enableDangerousCommands := true,
          safeCommandsPolicy := { allowAll := true, set := [] },
          dangerousCommandsPolicy := { allowAll := true, set := [] },
          blockedCommands := [] } "GET" "docker-manager command groups" =
      { status := 403, body := "command is blocked by policy: help\n" } := by
  have h := c10_healthz_help_policy_gated
    { enableSafeCommands := false, enableDangerousCommands := true,
      safeCommandsPolicy := { allowAll := true, set := [] },
      dangerousCommandsPolicy := { allowAll := true, set := [] },
      blockedCommands := [] } "status=ok" "docker-manager command groups"
  exact ⟨h.1 (Or.inl rfl), h.2 (Or.inl rfl)⟩

/-! ## Shadow-backend directory model (C3, C4)

A directory is an association list of file name to file content in
directory order; real directories have pairwise-distinct names, which the
theorems assume as nodupKeys.  The JS Map objects of the sync module are
the same association lists in insertion order (distinct file names give
distinct keys, so Map.set in scan order is an ordered append). -/

/-- A directory: file name to content, names pairwise distinct. -/
abbrev Dir := List (String × String)

/-- Pairwise-distinct keys of an association list. -/
abbrev nodupKeys {α : Type} (l : List (String × α)) : Prop :=
  (l.map Prod.fst).Nodup

/-- isIpv4 from tailscale-shadow-sync.js lines 10-17: the trimmed text is
four dot-separated runs of one to three digits, each at most 255. -/
def isIpv4 (value : String) : Bool :=
  let text := normalizeValue value
  let parts := splitOnChar '.' text
  parts.length == 4 && parts.all (fun p =>
    decide (1 ≤ p.data.length) && decide (p.data.length ≤ 3) &&
    p.data.all Char.isDigit &&
    decide (p.data.foldl (fun n c => n * 10 + (c.toNat - 48)) 0 ≤ 255))

/-- Whether a file name ends in .conf (JS name.endsWith of .conf). -/
def endsWithConf (name : String) : Bool :=
  ".conf".data.isSuffixOf name.data

/-- The file name with a trailing .conf removed (the
name.replace(. conf suffix) of the sync module, applied only after the
endsWith check). -/
def confStem (name : String) : String :=
  String.mk (name.data.take (name.data.length - 5))

/-- A directory entry counted as a shadow-backend member: a .conf file
whose stem is a valid IPv4 (tailscale-shadow-sync.js lines 24-29). -/
def isShadowName (name : String) : Bool :=
  endsWithConf name && isIpv4 (confStem name)

/-- readShadowFiles from tailscale-shadow-sync.js lines 19-36: the map
from IPv4 stem to file content over the shadow entries, in scan order. -/
def readShadowFiles (dir : Dir) : List (String × String) :=
  dir.filterMap (fun e => if isShadowName e.1 then some (confStem e.1, e.2) else none)

/-- renderShadowContent from tailscale-shadow-sync.js line 38. -/
def renderShadowContent (ip : String) (port : Nat) : String :=
  "server " ++ ip ++ ":" ++ toString port ++ " max_fails=2 fail_timeout=10s;\n"

/-- The existingFiles set scanned at the start of writeShadowState
(lines 42-54): the IPv4 stems of the .conf entries, in scan order. -/
def shadowStems (dir : Dir) : List String :=
  (dir.filter (fun e => isShadowName e.1)).map (fun e => confStem e.1)

/-- writeShadowState from tailscale-shadow-sync.js lines 40-67: write
one ip.conf file per desired entry (write-to-temp-then-rename, whose net
effect is setting the file), then delete the previously existing shadow
files whose ip is not desired. -/
def writeShadowState (dir : Dir) (desiredState : List (String × String)) : Dir :=
  let afterWrites :=
    desiredState.foldl (fun acc e => mapSet acc (e.1 ++ ".conf") e.2) dir
  let toRemove :=
    (shadowStems dir).filter (fun ip => !(desiredState.any (fun e => e.1 == ip)))
  toRemove.foldl (fun acc ip => mapDelete acc (ip ++ ".conf")) afterWrites

/-- Outcome of applyStateWithRollback: the directory afterwards, the
result surfaced to the caller, and how many rollback validate+reload
re-attempts were made. -/
structure ApplyResult where
  dir : Dir
  result : Except String Unit
  rollbackAttempts : Nat
  deriving Repr

/-- applyStateWithRollback from tailscale-shadow-sync.js lines 69-86:
write the desired state; if the nginx validate+reload pair fails
(firstOutcome carries its error), rewrite the complete previous snapshot,
re-attempt validate+reload once (rollbackOutcome, logged only), and
re-throw the original error. -/
def applyStateWithRollback (dir : Dir) (previousState desiredState : List (String × String))
    (firstOutcome rollbackOutcome : Option String) : ApplyResult :=
  let dir1 := writeShadowState dir desiredState
  match firstOutcome with
  | none => { dir := dir1, result := Except.ok (), rollbackAttempts := 0 }
  | some e =>
      { dir := writeShadowState dir1 previousState,
        result := Except.error e,
        rollbackAttempts := 1 }

/-- Tokenizer loop of the numeric-aware collation: digits accumulate
into the pending number, any other character first flushes it. -/
def numTokensAux : List Char → Option Nat → List (Sum Nat Char)
  | [], none => []
  | [], some n => [Sum.inl n]
  | c :: rest, acc =>
      if c.isDigit then
        numTokensAux rest (some ((acc.getD 0) * 10 + (c.toNat - 48)))
      else
        match acc with
        | none => Sum.inr c :: numTokensAux rest none
        | some n => Sum.inl n :: Sum.inr c :: numTokensAux rest none

/-- Digit runs of a string as numbers, other characters kept; the token
stream compared by the numeric-aware collation of the sort in
tailscale-shadow-sync.js lines 154 and 174-176. -/
def numTokens (cs : List Char) : List (Sum Nat Char) :=
  numTokensAux cs none

/-- Token comparison of the numeric collation: numeric runs compare as
numbers; on the IPv4 strings being sorted both sides tokenize into the
same digit-run and dot shapes, so the cross-kind cases are tie-breakers
only. -/
def tokCmp : Sum Nat Char → Sum Nat Char → Ordering
  | Sum.inl a, Sum.inl b => compare a b
  | Sum.inl _, Sum.inr _ => Ordering.lt
  | Sum.inr _, Sum.inl _ => Ordering.gt
  | Sum.inr a, Sum.inr b => compare a b

/-- Lexicographic comparison of token streams. -/
def tokListCmp : List (Sum Nat Char) → List (Sum Nat Char) → Ordering
  | [], [] => Ordering.eq
  | [], _ :: _ => Ordering.lt
  | _ :: _, [] => Ordering.gt
  | a :: as, b :: bs =>
      match tokCmp a b with
      | Ordering.eq => tokListCmp as bs
      | o => o

/-- The localeCompare(undefined, numeric, base) comparator used to sort
IP lists. -/
def ipCompare (a b : String) : Ordering :=
  tokListCmp (numTokens a.data) (numTokens b.data)

/-- Stable insertion used by sortIps. -/
def insertIpSorted (x : String) : List String → List String
  | [] => [x]
  | y :: rest =>
      if ipCompare x y = Ordering.gt then y :: insertIpSorted x rest
      else x :: y :: rest

/-- The stable numeric-aware sort applied to IP lists
(tailscale-shadow-sync.js lines 154 and 174-176). -/
def sortIps : List String → List String
  | [] => []
  | x :: rest => insertIpSorted x (sortIps rest)

/-- Outcome of one reconciliation cycle: the returned value (meaningful
when err is none), the directory afterwards, the thrown error if any,
and the rollback re-attempt count. -/
structure SyncCycleResult where
  value : SyncValue
  dir : Dir
  err : Option String
  rollbackAttempts : Nat
  deriving Repr

/-- runTailscaleShadowSync from tailscale-shadow-sync.js lines 158-221,
from the point where the active peer IPs are known: read the on-disk
state, render the desired state, diff, and either record an unchanged
no-op cycle or apply the new state with rollback.  nextIps is the output
of extractActivePeerIps (valid IPv4s, deduplicated, sorted); firstOutcome
and rollbackOutcome are the observable outcomes of the two possible
nginx validate+reload attempts. -/
def runTailscaleShadowSync (dir : Dir) (nextIps : List String) (shadowPort : Nat)
    (firstOutcome rollbackOutcome : Option String) : SyncCycleResult :=
  let previousState := readShadowFiles dir
  let nextState := nextIps.map (fun ip => (ip, renderShadowContent ip shadowPort))
  let previousIps := sortIps (previousState.map Prod.fst)
  let added := nextIps.filter (fun ip => !(previousState.any (fun e => e.1 == ip)))
  let removed := previousIps.filter (fun ip => !(nextState.any (fun e => e.1 == ip)))
  let changed := decide (0 < added.length) || decide (0 < removed.length)
  if changed then
    let ar := applyStateWithRollback dir previousState nextState firstOutcome rollbackOutcome
    { value := { changed := true, previousIps := previousIps, nextIps := nextIps,
                 added := added, removed := removed },
      dir := ar.dir,
      err := match ar.result with
             | Except.ok _ => none
             | Except.error e => some e,
      rollbackAttempts := ar.rollbackAttempts }
  else
    { value := { changed := false, previousIps := previousIps, nextIps := nextIps,
                 added := added, removed := removed },
      dir := dir, err := none, rollbackAttempts := 0 }

/-! ### Lookup characterization of the shadow-state write -/

lemma mapGet_mapDelete {α : Type} (m : List (String × α)) (k k2 : String) :
    mapGet (mapDelete m k) k2 = if k2 = k then none else mapGet m k2 := by
  induction m with
  | nil => simp [mapDelete, mapGet]
  | cons e rest ih =>
      obtain ⟨n, c⟩ := e
      by_cases hn : n = k
      · subst hn
        rw [show mapDelete ((n, c) :: rest) n = mapDelete rest n from by simp [mapDelete]]
        rw [ih]
        by_cases h2 : k2 = n
        · simp [h2]
        · simp [mapGet, h2, Ne.symm h2]
      · rw [show mapDelete ((n, c) :: rest) k = (n, c) :: mapDelete rest k from by
          simp [mapDelete, hn]]
        by_cases h2 : k2 = n
        · subst h2
          have hk : ¬ k2 = k := fun h => hn (h.symm ▸ rfl)
          simp [mapGet, hk]
        · simp [mapGet, Ne.symm h2, ih]

lemma mapGet_writes (desired : List (String × String)) (dir : Dir) (m : String) :
    mapGet (desired.foldl (fun acc e => mapSet acc (e.1 ++ ".conf") e.2) dir) m =
      match desired.reverse.find? (fun e => e.1 ++ ".conf" == m) with
      | some e => some e.2
      | none => mapGet dir m := by
  induction desired generalizing dir with
  | nil => simp
  | cons e rest ih =>
      simp only [List.foldl_cons, List.reverse_cons, List.find?_append]
      rw [ih]
      rcases hf : List.find? (fun e => e.1 ++ ".conf" == m) rest.reverse with _ | e2
      · simp only [hf, Option.none_or]
        by_cases hq : e.1 ++ ".conf" = m
        · have h1 : List.find? (fun e => e.1 ++ ".conf" == m) [e] = some e :=
            List.find?_cons_of_pos _ (by simp [hq])
          rw [h1]
          show mapGet (mapSet dir (e.1 ++ ".conf") e.2) m = some e.2
          rw [← hq]
          exact mapGet_mapSet_self dir (e.1 ++ ".conf") e.2
        · have h1 : List.find? (fun e => e.1 ++ ".conf" == m) [e] = none := by
            rw [List.find?_cons_of_neg _ (by simp [hq])]
            rfl
          rw [h1]
          show mapGet (mapSet dir (e.1 ++ ".conf") e.2) m = mapGet dir m
          exact mapGet_mapSet_ne dir (e.1 ++ ".conf") m e.2 hq
      · simp only [hf, Option.or_some]

lemma mapGet_removeAll (ips : List String) (dir : Dir) (m : String) :
    mapGet (ips.foldl (fun acc ip => mapDelete acc (ip ++ ".conf")) dir) m =
      if ips.any (fun ip => ip ++ ".conf" == m) then none else mapGet dir m := by
  induction ips generalizing dir with
  | nil => simp
  | cons ip rest ih =>
      simp only [List.foldl_cons, List.any_cons]
      rw [ih, mapGet_mapDelete]
      by_cases hq : ip ++ ".conf" = m
      · simp [hq]
      · have hb : (ip ++ ".conf" == m) = false := by simp [hq]
        simp [hb, Ne.symm hq]

lemma mapGet_writeShadowState (dir : Dir) (desired : List (String × String)) (m : String) :
    mapGet (writeShadowState dir desired) m =
      if ((shadowStems dir).filter (fun ip => !(desired.any (fun e => e.1 == ip)))).any
          (fun ip => ip ++ ".conf" == m) then none
      else
        match desired.reverse.find? (fun e => e.1 ++ ".conf" == m) with
        | some e => some e.2
        | none => mapGet dir m := by
  unfold writeShadowState
  rw [mapGet_removeAll, mapGet_writes]

/-! ### File-name arithmetic -/

lemma strExt {a b : String} (h : a.data = b.data) : a = b := by
  cases a; cases b; cases h; rfl

lemma confStem_append (ip : String) : confStem (ip ++ ".conf") = ip := by
  show String.mk (((ip ++ ".conf").data).take ((ip ++ ".conf").data.length - 5)) = ip
  rw [String.data_append]
  have h5 : (".conf".data).length = 5 := rfl
  have hlen : (ip.data ++ ".conf".data).length - 5 = ip.data.length := by
    simp [List.length_append, h5]
  rw [hlen, List.take_left]

lemma endsWithConf_append (ip : String) : endsWithConf (ip ++ ".conf") = true := by
  unfold endsWithConf
  rw [String.data_append]
  simp only [List.isSuffixOf_iff_suffix]
  exact List.suffix_append ip.data ".conf".data

lemma confRecon (name : String) (h : endsWithConf name = true) :
    confStem name ++ ".conf" = name := by
  unfold endsWithConf at h
  have h2 : ".conf".data <:+ name.data := by
    simpa [List.isSuffixOf_iff_suffix] using h
  obtain ⟨pre, hpre⟩ := h2
  have h5 : (".conf".data).length = 5 := rfl
  have htake : name.data.take (name.data.length - 5) = pre := by
    rw [← hpre]
    have hl : (pre ++ ".conf".data).length - 5 = pre.length := by
      simp [List.length_append, h5]
    rw [hl, List.take_left]
  apply strExt
  rw [String.data_append]
  show (confStem name).data ++ ".conf".data = name.data
  rw [show (confStem name).data = name.data.take (name.data.length - 5) from rfl]
  rw [htake, hpre]

lemma confName_inj {a b : String} (h : a ++ ".conf" = b ++ ".conf") : a = b := by
  have h2 := congrArg confStem h
  rwa [confStem_append, confStem_append] at h2

lemma isShadowName_append (ip : String) : isShadowName (ip ++ ".conf") = isIpv4 ip := by
  unfold isShadowName
  rw [endsWithConf_append, confStem_append]
  simp

/-! ### Membership lemmas -/

lemma mapGet_eq_some_of_mem {α : Type} (l : List (String × α)) (k : String) (v : α)
    (hn : nodupKeys l) (hm : (k, v) ∈ l) : mapGet l k = some v := by
  induction l with
  | nil => simp at hm
  | cons e rest ih =>
      obtain ⟨n, c⟩ := e
      simp only [nodupKeys, List.map_cons, List.nodup_cons] at hn
      rcases List.mem_cons.1 hm with heq | hm2
      · obtain ⟨hk, hv⟩ := Prod.mk.injEq .. ▸ heq.symm
        subst hk; subst hv
        simp [mapGet]
      · have hk : n ≠ k := by
          intro h
          subst h
          exact hn.1 (List.mem_map.2 ⟨(n, v), hm2, rfl⟩)
        simp only [mapGet, if_neg hk]
        exact ih hn.2 hm2

lemma mem_of_mapGet_eq_some {α : Type} (l : List (String × α)) (k : String) (v : α)
    (h : mapGet l k = some v) : (k, v) ∈ l := by
  induction l with
  | nil => simp [mapGet] at h
  | cons e rest ih =>
      obtain ⟨n, c⟩ := e
      by_cases hn : n = k
      · subst hn
        rw [show mapGet ((n, c) :: rest) n = some c from by simp [mapGet]] at h
        obtain rfl : c = v := Option.some.inj h
        exact List.mem_cons_self _ _
      · simp only [mapGet, if_neg hn] at h
        exact List.mem_cons_of_mem _ (ih h)

lemma mem_readShadowFiles_of (dir : Dir) (n : String) (c : String)
    (hm : (n, c) ∈ dir) (hs : isShadowName n = true) :
    (confStem n, c) ∈ readShadowFiles dir := by
  unfold readShadowFiles
  exact List.mem_filterMap.2 ⟨(n, c), hm, by simp [hs]⟩

lemma mem_readShadowFiles_inv (dir : Dir) (e : String × String)
    (hm : e ∈ readShadowFiles dir) :
    ∃ n c, (n, c) ∈ dir ∧ isShadowName n = true ∧ e = (confStem n, c) := by
  unfold readShadowFiles at hm
  obtain ⟨⟨n, c⟩, hmem, hf⟩ := List.mem_filterMap.1 hm
  by_cases hs : isShadowName n = true
  · refine ⟨n, c, hmem, hs, ?_⟩
    rw [if_pos hs] at hf
    exact (Option.some.inj hf).symm
  · simp [hs] at hf

lemma mem_shadowStems_iff (dir : Dir) (ip : String) :
    ip ∈ shadowStems dir ↔
      ∃ n c, (n, c) ∈ dir ∧ isShadowName n = true ∧ confStem n = ip := by
  unfold shadowStems
  constructor
  · intro h
    obtain ⟨⟨n, c⟩, hmem, hstem⟩ := List.mem_map.1 h
    have := List.mem_filter.1 hmem
    exact ⟨n, c, this.1, this.2, hstem⟩
  · rintro ⟨n, c, hmem, hshadow, hstem⟩
    exact List.mem_map.2 ⟨(n, c), List.mem_filter.2 ⟨hmem, hshadow⟩, hstem⟩

/-! ### Key-uniqueness preservation -/

lemma keys_mapSet {α : Type} (m : List (String × α)) (k : String) (v : α) :
    (mapSet m k v).map Prod.fst =
      if k ∈ m.map Prod.fst then m.map Prod.fst else m.map Prod.fst ++ [k] := by
  induction m with
  | nil => simp [mapSet]
  | cons e rest ih =>
      obtain ⟨n, c⟩ := e
      by_cases hn : n = k
      · simp [mapSet, hn]
      · simp only [mapSet, if_neg hn, List.map_cons, ih, List.mem_cons]
        have : ¬ k = n := fun h => hn h.symm
        by_cases hk : k ∈ rest.map Prod.fst <;> simp [hk, this]

lemma nodupKeys_mapSet {α : Type} (m : List (String × α)) (k : String) (v : α)
    (h : nodupKeys m) : nodupKeys (mapSet m k v) := by
  unfold nodupKeys at *
  rw [keys_mapSet]
  by_cases hk : k ∈ m.map Prod.fst
  · simp [hk, h]
  · simp [hk, List.nodup_append, h]

lemma keys_mapDelete_sublist {α : Type} (m : List (String × α)) (k : String) :
    ((mapDelete m k).map Prod.fst).Sublist (m.map Prod.fst) := by
  induction m with
  | nil => simp [mapDelete]
  | cons e rest ih =>
      obtain ⟨n, c⟩ := e
      by_cases hn : n = k
      · rw [show mapDelete ((n, c) :: rest) k = mapDelete rest k from by simp [mapDelete, hn]]
        exact ih.trans (List.sublist_cons_self _ _)
      · rw [show mapDelete ((n, c) :: rest) k = (n, c) :: mapDelete rest k from by
          simp [mapDelete, hn]]
        simpa using ih

lemma nodupKeys_mapDelete {α : Type} (m : List (String × α)) (k : String)
    (h : nodupKeys m) : nodupKeys (mapDelete m k) :=
  (keys_mapDelete_sublist m k).nodup h

lemma nodupKeys_writeShadowState (dir : Dir) (desired : List (String × String))
    (h : nodupKeys dir) : nodupKeys (writeShadowState dir desired) := by
  unfold writeShadowState
  have h1 : ∀ (ds : List (String × String)) (d : Dir), nodupKeys d →
      nodupKeys (ds.foldl (fun acc e => mapSet acc (e.1 ++ ".conf") e.2) d) := by
    intro ds
    induction ds with
    | nil => exact fun d hd => hd
    | cons e rest ih => exact fun d hd => ih _ (nodupKeys_mapSet _ _ _ hd)
  have h2 : ∀ (ips : List String) (d : Dir), nodupKeys d →
      nodupKeys (ips.foldl (fun acc ip => mapDelete acc (ip ++ ".conf")) d) := by
    intro ips
    induction ips with
    | nil => exact fun d hd => hd
    | cons ip rest ih => exact fun d hd => ih _ (nodupKeys_mapDelete _ _ hd)
  exact h2 _ _ (h1 _ _ h)

/-! ### The rollback write restores the previous directory -/

/-- After writing any desired state whose keys are IPv4 strings and then
rewriting the previously read snapshot, every file has its original
content (the lookup function of the directory is unchanged). -/
lemma rollback_pointwise (dir : Dir) (desired : List (String × String)) (m : String)
    (hn : nodupKeys dir) (hips : ∀ e ∈ desired, isIpv4 e.1 = true) :
    mapGet (writeShadowState (writeShadowState dir desired) (readShadowFiles dir)) m =
      mapGet dir m := by
  rw [mapGet_writeShadowState]
  split_ifs with hA
  · -- a rollback-stage removal hits m: then dir cannot contain m
    rw [List.any_eq_true] at hA
    obtain ⟨ip, hipmem, hipm⟩ := hA
    rw [List.mem_filter] at hipmem
    obtain ⟨hstem, hnotprev⟩ := hipmem
    have hm : ip ++ ".conf" = m := eq_of_beq hipm
    obtain ⟨n2, c2, _, hn2s, hn2stem⟩ :=
      (mem_shadowStems_iff (writeShadowState dir desired) ip).1 hstem
    have hn2conf : endsWithConf n2 = true := by
      unfold isShadowName at hn2s
      exact (Bool.and_eq_true .. ▸ hn2s).1
    have hn2name : n2 = m := by
      rw [← hm, ← hn2stem]
      exact (confRecon n2 hn2conf).symm
    have hsm : isShadowName m = true := hn2name ▸ hn2s
    rcases hget : mapGet dir m with _ | c
    · rfl
    · exfalso
      have hmem := mem_of_mapGet_eq_some dir m c hget
      have hprevmem : (confStem m, c) ∈ readShadowFiles dir :=
        mem_readShadowFiles_of dir m c hmem hsm
      have hstemm : confStem m = ip := by rw [← hm, confStem_append]
      rw [hstemm] at hprevmem
      have hany : (readShadowFiles dir).any (fun e => e.1 == ip) = true :=
        List.any_eq_true.2 ⟨(ip, c), hprevmem, by simp⟩
      rw [hany] at hnotprev
      simp at hnotprev
  · rcases hf : (readShadowFiles dir).reverse.find? (fun e => e.1 ++ ".conf" == m)
      with _ | e
    · -- no previous-snapshot file maps to m: dir contains no shadow file m
      have hfnone : ∀ e ∈ readShadowFiles dir, ¬ (e.1 ++ ".conf" == m) = true := by
        intro e he hp
        exact List.find?_eq_none.1 hf e (List.mem_reverse.2 he) hp
      simp only [hf]
      rw [mapGet_writeShadowState]
      split_ifs with hB
      · -- a stage-1 removal of an existing shadow file m: the previous
        -- snapshot would contain its stem, contradicting hfnone
        exfalso
        rw [List.any_eq_true] at hB
        obtain ⟨ip, hipmem, hipm⟩ := hB
        rw [List.mem_filter] at hipmem
        obtain ⟨hstem, _⟩ := hipmem
        have hm : ip ++ ".conf" = m := eq_of_beq hipm
        obtain ⟨n2, c2, hn2mem, hn2s, hn2stem⟩ := (mem_shadowStems_iff dir ip).1 hstem
        have hn2conf : endsWithConf n2 = true := by
          unfold isShadowName at hn2s
          exact (Bool.and_eq_true .. ▸ hn2s).1
        have hn2name : n2 = m := by
          rw [← hm, ← hn2stem]
          exact (confRecon n2 hn2conf).symm
        have hp2 : (confStem n2, c2) ∈ readShadowFiles dir :=
          mem_readShadowFiles_of dir n2 c2 hn2mem hn2s
        rw [hn2stem] at hp2
        exact hfnone (ip, c2) hp2 (by simp [hm])
      · rcases hg : desired.reverse.find? (fun e => e.1 ++ ".conf" == m) with _ | e2
        · simp only [hg]
        · -- a stage-1 write created shadow file m that survived to the
          -- rollback stage: impossible since its stem is neither removed
          -- (hA is false) nor in the previous snapshot (hfnone)
          exfalso
          have hm : e2.1 ++ ".conf" = m := by
            have h0 := List.find?_some hg
            exact eq_of_beq (by simpa using h0)
          have he2mem : e2 ∈ desired := List.mem_reverse.1 (List.mem_of_find?_eq_some hg)
          have hip : isIpv4 e2.1 = true := hips e2 he2mem
          have hD1get : mapGet (writeShadowState dir desired) m = some e2.2 := by
            rw [mapGet_writeShadowState, if_neg hB, hg]
          have hmemD1 := mem_of_mapGet_eq_some _ m e2.2 hD1get
          have hsm : isShadowName m = true := by
            rw [← hm, isShadowName_append]
            exact hip
          have hcs : confStem m = e2.1 := by rw [← hm, confStem_append]
          have hstemmem : confStem m ∈ shadowStems (writeShadowState dir desired) :=
            (mem_shadowStems_iff _ (confStem m)).2 ⟨m, e2.2, hmemD1, hsm, rfl⟩
          by_cases hpa : (readShadowFiles dir).any (fun e => e.1 == confStem m) = true
          · rw [List.any_eq_true] at hpa
            obtain ⟨e3, he3mem, he3p⟩ := hpa
            have he3 : e3.1 = confStem m := eq_of_beq he3p
            refine hfnone e3 he3mem ?_
            rw [he3, hcs]
            simp [hm]
          · apply hA
            rw [List.any_eq_true]
            refine ⟨confStem m, ?_, ?_⟩
            · rw [List.mem_filter]
              refine ⟨hstemmem, ?_⟩
              rcases hv : (readShadowFiles dir).any (fun e => e.1 == confStem m)
                with _ | _
              · rfl
              · exact absurd hv hpa
            · rw [hcs]
              simp [hm]
    · -- the previous snapshot restores file m with its original content
      simp only [hf]
      have hm : e.1 ++ ".conf" = m := by
        have h0 := List.find?_some hf
        exact eq_of_beq (by simpa using h0)
      have hem : e ∈ readShadowFiles dir := List.mem_reverse.1 (List.mem_of_find?_eq_some hf)
      obtain ⟨n2, c2, hn2mem, hn2s, he⟩ := mem_readShadowFiles_inv dir e hem
      have hn2conf : endsWithConf n2 = true := by
        unfold isShadowName at hn2s
        exact (Bool.and_eq_true .. ▸ hn2s).1
      have hn2name : n2 = m := by
        rw [← hm, he]
        exact (confRecon n2 hn2conf).symm
      have hget : mapGet dir m = some c2 :=
        mapGet_eq_some_of_mem dir m c2 hn (hn2name ▸ hn2mem)
      rw [hget, he]

/-- Pairs of a key-nodup association list are nodup. -/
lemma nodup_of_nodupKeys {α : Type} (l : List (String × α)) (h : nodupKeys l) :
    l.Nodup :=
  List.Nodup.of_map Prod.fst h

/-- C3 at the applyStateWithRollback level: when the first
validate+reload fails after the desired state was written, the directory
is rewritten to the complete previous snapshot, one validate+reload
re-attempt is made, and the original error is the result — whatever the
rollback re-attempt outcome. -/
lemma applyStateWithRollback_spec (dir : Dir) (desired : List (String × String))
    (e : String) (ro : Option String) (hn : nodupKeys dir)
    (hips : ∀ x ∈ desired, isIpv4 x.1 = true) :
    List.Perm (applyStateWithRollback dir (readShadowFiles dir) desired (some e) ro).dir
        dir ∧
    (applyStateWithRollback dir (readShadowFiles dir) desired (some e) ro).result =
      Except.error e ∧
    (applyStateWithRollback dir (readShadowFiles dir) desired (some e) ro).rollbackAttempts
      = 1 := by
  refine ⟨?_, rfl, rfl⟩
  show List.Perm (writeShadowState (writeShadowState dir desired) (readShadowFiles dir)) dir
  have hD2n : nodupKeys
      (writeShadowState (writeShadowState dir desired) (readShadowFiles dir)) :=
    nodupKeys_writeShadowState _ _ (nodupKeys_writeShadowState _ _ hn)
  rw [List.perm_ext_iff_of_nodup (nodup_of_nodupKeys _ hD2n) (nodup_of_nodupKeys _ hn)]
  rintro ⟨k, v⟩
  constructor
  · intro hmem
    have h1 := mapGet_eq_some_of_mem _ k v hD2n hmem
    rw [rollback_pointwise dir desired k hn hips] at h1
    exact mem_of_mapGet_eq_some dir k v h1
  · intro hmem
    have h1 := mapGet_eq_some_of_mem dir k v hn hmem
    rw [← rollback_pointwise dir desired k hn hips] at h1
    exact mem_of_mapGet_eq_some _ k v h1

/-- C3.  In every cycle where the desired backend set differs from disk
and the validate/reload step fails after the new state was written, the
shadow directory is rewritten to the complete previous snapshot (same
files, same contents), validate+reload is re-attempted exactly once
against that rollback state, and the original error — independent of the
rollback outcome — is the one thrown to the caller. -/
theorem c3_rollback_restores_previous_state (dir : Dir) (nextIps : List String)
    (port : Nat) (e : String) (ro : Option String)
    (hn : nodupKeys dir) (hips : ∀ ip ∈ nextIps, isIpv4 ip = true)
    (hch : (runTailscaleShadowSync dir nextIps port (some e) ro).value.changed = true) :
    List.Perm (runTailscaleShadowSync dir nextIps port (some e) ro).dir dir ∧
    (runTailscaleShadowSync dir nextIps port (some e) ro).err = some e ∧
    (runTailscaleShadowSync dir nextIps port (some e) ro).rollbackAttempts = 1 := by
  have hips2 : ∀ x ∈ nextIps.map (fun ip => (ip, renderShadowContent ip port)),
      isIpv4 x.1 = true := by
    intro x hx
    obtain ⟨ip, hipmem, rfl⟩ := List.mem_map.1 hx
    exact hips ip hipmem
  have hspec := applyStateWithRollback_spec dir
    (nextIps.map (fun ip => (ip, renderShadowContent ip port))) e ro hn hips2
  unfold runTailscaleShadowSync at hch ⊢
  simp only [] at hch ⊢
  split_ifs at hch ⊢ with hc
  refine ⟨hspec.1, ?_, hspec.2.2⟩
  rw [hspec.2.1]

/-- Witness for C3 at a concrete failing cycle: disk holds
10.0.0.2.conf, the desired set is 10.0.0.5, and the first
validate+reload fails: the directory afterwards is exactly the previous
one, the original error surfaces (not the rollback error), and one
rollback re-attempt was made. -/
theorem c3_rollback_restores_previous_state_witness :
    List.Perm (runTailscaleShadowSync [("10.0.0.2.conf", "old content")] ["10.0.0.5"]
        3000 (some "nginx config test failed") (some "rollback reload also failed")).dir
      [("10.0.0.2.conf", "old content")] ∧
    (runTailscaleShadowSync [("10.0.0.2.conf", "old content")] ["10.0.0.5"]
        3000 (some "nginx config test failed") (some "rollback reload also failed")).err =
      some "nginx config test failed" ∧
    (runTailscaleShadowSync [("10.0.0.2.conf", "old content")] ["10.0.0.5"]
        3000 (some "nginx config test failed")
        (some "rollback reload also failed")).rollbackAttempts = 1 :=
  c3_rollback_restores_previous_state [("10.0.0.2.conf", "old content")] ["10.0.0.5"]
    3000 "nginx config test failed" (some "rollback reload also failed")
    (by decide) (by decide) (by decide)

/-! ### The diff of a reconciliation cycle (C4) -/

lemma insertIpSorted_perm (x : String) (l : List String) :
    List.Perm (insertIpSorted x l) (x :: l) := by
  induction l with
  | nil => exact List.Perm.refl _
  | cons y rest ih =>
      unfold insertIpSorted
      split_ifs with h
      · exact (List.Perm.cons y ih).trans (List.Perm.swap x y rest)
      · exact List.Perm.refl _

lemma sortIps_perm (l : List String) : List.Perm (sortIps l) l := by
  induction l with
  | nil => exact List.Perm.refl _
  | cons x rest ih =>
      exact (insertIpSorted_perm x (sortIps rest)).trans (List.Perm.cons x ih)

lemma mem_sortIps (a : String) (l : List String) : a ∈ sortIps l ↔ a ∈ l :=
  (sortIps_perm l).mem_iff

/-- C4.  The cycle computes added as the desired IPs absent on disk and
removed as the on-disk IPs no longer desired; changed is false exactly
when the two sets coincide, and an unchanged cycle leaves the directory
untouched. -/
theorem c4_sync_diff_added_removed (dir : Dir) (nextIps : List String) (port : Nat)
    (fo ro : Option String) :
    (∀ ip, ip ∈ (runTailscaleShadowSync dir nextIps port fo ro).value.added ↔
      (ip ∈ nextIps ∧ ip ∉ (readShadowFiles dir).map Prod.fst)) ∧
    (∀ ip, ip ∈ (runTailscaleShadowSync dir nextIps port fo ro).value.removed ↔
      (ip ∈ (readShadowFiles dir).map Prod.fst ∧ ip ∉ nextIps)) ∧
    ((runTailscaleShadowSync dir nextIps port fo ro).value.changed = false ↔
      (∀ ip, ip ∈ nextIps ↔ ip ∈ (readShadowFiles dir).map Prod.fst)) ∧
    ((runTailscaleShadowSync dir nextIps port fo ro).value.changed = false →
      (runTailscaleShadowSync dir nextIps port fo ro).dir = dir) := by
  have hmemprev : ∀ ip, ((readShadowFiles dir).any (fun e => e.1 == ip) = true) ↔
      ip ∈ (readShadowFiles dir).map Prod.fst := by
    intro ip
    rw [List.any_eq_true]
    constructor
    · rintro ⟨e, he, hp⟩
      exact List.mem_map.2 ⟨e, he, eq_of_beq hp⟩
    · intro h
      obtain ⟨e, he, hfst⟩ := List.mem_map.1 h
      exact ⟨e, he, by simp [hfst]⟩
  have hmemnext : ∀ ip, ((nextIps.map (fun q => (q, renderShadowContent q port))).any
      (fun e => e.1 == ip) = true) ↔ ip ∈ nextIps := by
    intro ip
    rw [List.any_eq_true]
    constructor
    · rintro ⟨e, he, hp⟩
      obtain ⟨q, hq, rfl⟩ := List.mem_map.1 he
      have hqe : q = ip := eq_of_beq (by simpa using hp)
      exact hqe ▸ hq
    · intro h
      exact ⟨(ip, renderShadowContent ip port), List.mem_map.2 ⟨ip, h, rfl⟩, by simp⟩
  have hadded : ∀ ip, ip ∈ nextIps.filter
      (fun ip => !((readShadowFiles dir).any (fun e => e.1 == ip))) ↔
      (ip ∈ nextIps ∧ ip ∉ (readShadowFiles dir).map Prod.fst) := by
    intro ip
    rw [List.mem_filter]
    constructor
    · rintro ⟨h1, h2⟩
      refine ⟨h1, fun hm => ?_⟩
      rw [← hmemprev ip] at hm
      rw [hm] at h2
      simp at h2
    · rintro ⟨h1, h2⟩
      refine ⟨h1, ?_⟩
      rcases hv : (readShadowFiles dir).any (fun e => e.1 == ip) with _ | _
      · rfl
      · exact absurd ((hmemprev ip).1 hv) h2
  have hremoved : ∀ ip, ip ∈ (sortIps ((readShadowFiles dir).map Prod.fst)).filter
      (fun ip => !((nextIps.map (fun q => (q, renderShadowContent q port))).any
        (fun e => e.1 == ip))) ↔
      (ip ∈ (readShadowFiles dir).map Prod.fst ∧ ip ∉ nextIps) := by
    intro ip
    rw [List.mem_filter, mem_sortIps]
    constructor
    · rintro ⟨h1, h2⟩
      refine ⟨h1, fun hm => ?_⟩
      rw [← hmemnext ip] at hm
      rw [hm] at h2
      simp at h2
    · rintro ⟨h1, h2⟩
      refine ⟨h1, ?_⟩
      rcases hv : (nextIps.map (fun q => (q, renderShadowContent q port))).any
          (fun e => e.1 == ip) with _ | _
      · rfl
      · exact absurd ((hmemnext ip).1 hv) h2
  have hchanged :
      ((decide (0 < (nextIps.filter
          (fun ip => !((readShadowFiles dir).any (fun e => e.1 == ip)))).length) ||
        decide (0 < ((sortIps ((readShadowFiles dir).map Prod.fst)).filter
          (fun ip => !((nextIps.map (fun q => (q, renderShadowContent q port))).any
            (fun e => e.1 == ip)))).length)) = false) ↔
      (∀ ip, ip ∈ nextIps ↔ ip ∈ (readShadowFiles dir).map Prod.fst) := by
    constructor
    · intro h
      simp only [Bool.or_eq_false_iff, decide_eq_false_iff_not, Nat.not_lt,
        Nat.le_zero, List.length_eq_zero] at h
      intro ip
      constructor
      · intro hmem
        by_contra hnot
        have hm := (hadded ip).2 ⟨hmem, hnot⟩
        rw [h.1] at hm
        simp at hm
      · intro hmem
        by_contra hnot
        have hm := (hremoved ip).2 ⟨hmem, hnot⟩
        rw [h.2] at hm
        simp at hm
    · intro h
      have ha : nextIps.filter
          (fun ip => !((readShadowFiles dir).any (fun e => e.1 == ip))) = [] :=
        List.eq_nil_iff_forall_not_mem.2 (fun ip hm =>
          ((hadded ip).1 hm).2 ((h ip).1 ((hadded ip).1 hm).1))
      have hr : (sortIps ((readShadowFiles dir).map Prod.fst)).filter
          (fun ip => !((nextIps.map (fun q => (q, renderShadowContent q port))).any
            (fun e => e.1 == ip))) = [] :=
        List.eq_nil_iff_forall_not_mem.2 (fun ip hm =>
          ((hremoved ip).1 hm).2 ((h ip).2 ((hremoved ip).1 hm).1))
      rw [ha, hr]
      simp
  unfold runTailscaleShadowSync
  simp only []
  split_ifs with hc
  · refine ⟨hadded, hremoved, ?_, ?_⟩
    · constructor
      · intro h
        exact absurd h (by decide)
      · intro h
        rw [hchanged.2 h] at hc
        exact absurd hc (by decide)
    · intro h
      exact absurd h (by decide)
  · have hcf : (decide (0 < (nextIps.filter
        (fun ip => !((readShadowFiles dir).any (fun e => e.1 == ip)))).length) ||
      decide (0 < ((sortIps ((readShadowFiles dir).map Prod.fst)).filter
        (fun ip => !((nextIps.map (fun q => (q, renderShadowContent q port))).any
          (fun e => e.1 == ip)))).length)) = false := by
      rcases hv : (decide (0 < (nextIps.filter
          (fun ip => !((readShadowFiles dir).any (fun e => e.1 == ip)))).length) ||
        decide (0 < ((sortIps ((readShadowFiles dir).map Prod.fst)).filter
          (fun ip => !((nextIps.map (fun q => (q, renderShadowContent q port))).any
            (fun e => e.1 == ip)))).length)) with _ | _
      · rfl
      · exact absurd hv hc
    refine ⟨hadded, hremoved, ?_, fun _ => rfl⟩
    constructor
    · intro _
      exact hchanged.1 hcf
    · intro _
      rfl

/-- Witness for C4 at the example of the claim: previous set 10.0.0.2,
10.0.0.5 and desired set 10.0.0.5, 10.0.0.10 give added 10.0.0.10,
removed 10.0.0.2 and changed; with identical sets nothing changes and
no file is written or deleted. -/
theorem c4_sync_diff_added_removed_witness :
    (runTailscaleShadowSync [("10.0.0.2.conf", "x"), ("10.0.0.5.conf", "y")]
        ["10.0.0.5", "10.0.0.10"] 3000 none none).value.added = ["10.0.0.10"] ∧
    (runTailscaleShadowSync [("10.0.0.2.conf", "x"), ("10.0.0.5.conf", "y")]
        ["10.0.0.5", "10.0.0.10"] 3000 none none).value.removed = ["10.0.0.2"] ∧
    (runTailscaleShadowSync [("10.0.0.2.conf", "x"), ("10.0.0.5.conf", "y")]
        ["10.0.0.5", "10.0.0.10"] 3000 none none).value.changed = true ∧
    (runTailscaleShadowSync [("10.0.0.2.conf", "x"), ("10.0.0.5.conf", "y")]
        ["10.0.0.2", "10.0.0.5"] 3000 none none).value.changed = false ∧
    (runTailscaleShadowSync [("10.0.0.2.conf", "x"), ("10.0.0.5.conf", "y")]
        ["10.0.0.2", "10.0.0.5"] 3000 none none).dir =
      [("10.0.0.2.conf", "x"), ("10.0.0.5.conf", "y")] := by
  have h := (c4_sync_diff_added_removed [("10.0.0.2.conf", "x"), ("10.0.0.5.conf", "y")]
    ["10.0.0.2", "10.0.0.5"] 3000 none none).2.2.2 (by decide)
  exact ⟨by decide, by decide, by decide, by decide, h⟩

end DM
